import Mathlib

/-!
# Verification of the `bourse` exchange server core

Shallow embedding of the C sources of the `bourse` multi-client exchange
server (src/account.c, src/exchange.c, src/trader.c, src/client_registry.c,
src/server.c, src/protocol.c) together with proofs about the embedded
operations.

All monetary (`funds_t`) and quantity (`quantity_t`) values are unsigned
32-bit integers in the C sources; they are modelled as `Nat` with explicit
reduction modulo `2 ^ 32` exactly where the C arithmetic wraps.  Pointers
to list nodes are modelled as positions in Lean lists; the per-account and
exchange-wide mutexes serialize the C operations, so each C critical
section becomes one pure transition function on an explicit state.
-/

namespace Bourse

/-- The constant `2 ^ 32`, the modulus of the unsigned 32-bit `funds_t` / `quantity_t`
arithmetic used throughout the C sources. -/
def U32 : Nat := 4294967296

/-! ## Account store (src/account.c)

`struct account` holds a `funds_t balance` and a `quantity_t inventory`,
each manipulated under the per-account mutex.  The mutex makes every
C operation on an account atomic, so each one is a pure function here. -/

/-- The mutable fields of `struct account` in src/account.c
(balance and inventory are `uint32_t`; the mutex is implicit). -/
structure Account where
  balance : Nat
  inventory : Nat
  deriving Repr, DecidableEq

/-- Embedding of `account_increase_balance` (src/account.c:116): unconditional
`balance += amount` in `uint32_t` arithmetic. -/
def account_increase_balance (a : Account) (amount : Nat) : Account :=
  { a with balance := (a.balance + amount) % U32 }

/-- Embedding of `account_decrease_balance` (src/account.c:142): under the account mutex,
if `balance >= amount` subtract and return success (`0`, here `true`),
otherwise leave the account untouched and return failure (`-1`, here
`false`).  The returned account is the post-state. -/
def account_decrease_balance (a : Account) (amount : Nat) : Bool × Account :=
  if amount ≤ a.balance then
    (true, { a with balance := a.balance - amount })
  else
    (false, a)

/-- Embedding of `account_increase_inventory` (src/account.c:162): unconditional
`inventory += quantity` in `uint32_t` arithmetic. -/
def account_increase_inventory (a : Account) (quantity : Nat) : Account :=
  { a with inventory := (a.inventory + quantity) % U32 }

/-- Embedding of `account_decrease_inventory` (src/account.c:188): compare-and-subtract
on the inventory, exactly analogous to `account_decrease_balance`. -/
def account_decrease_inventory (a : Account) (quantity : Nat) : Bool × Account :=
  if quantity ≤ a.inventory then
    (true, { a with inventory := a.inventory - quantity })
  else
    (false, a)

/-! ## Exchange (src/exchange.c)

`struct order` nodes live in two singly linked lists (`buy_orders`,
`sell_orders`); insertion is at the head.  The exchange-wide mutex makes
each C operation a pure transition.  Node pointers become list positions.
Traders are identified by a `Nat`; each trader session is bound to the
account of the same index (`trader_get_account`).  On top of the C state
we carry ghost tallies (cumulative deposits, withdrawals, sale proceeds
and purchase costs per account) that exist only to state conservation
properties; no operation reads them. -/

/-- Embedding of `struct order` (src/exchange.c:29): order id, owning trader,
remaining quantity and limit price (`uint32_t` each).  The `type` field
is encoded by which of the two book lists the order is in. -/
structure Order where
  id : Nat
  owner : Nat
  quantity : Nat
  price : Nat
  deriving Repr, DecidableEq

/-- The exchange state (`struct exchange`, src/exchange.c:38) plus the
per-account store and the ghost tallies. -/
structure ExSt where
  buys : List Order
  sells : List Order
  lastTradePrice : Nat
  nextOrderId : Nat
  accounts : Nat → Account
  deposited : Nat → Nat
  withdrawn : Nat → Nat
  proceeds : Nat → Nat
  purchases : Nat → Nat

/-- Apply an update to one trader's account, leaving the rest alone. -/
def updAcct (s : ExSt) (t : Nat) (f : Account → Account) : ExSt :=
  { s with accounts := fun x => if x = t then f (s.accounts x) else s.accounts x }

/-- Add `n` to a ghost tally of trader `t`. -/
def bump (g : Nat → Nat) (t : Nat) (n : Nat) : Nat → Nat :=
  fun x => if x = t then g x + n else g x

/-- Embedding of `find_best_buy` (src/exchange.c:143): linear scan from the list head
keeping the current best and replacing it only on a strictly greater
price, so on a price tie the order nearest the head survives.  The C
function returns the node pointer; here the position is returned with the
order. -/
def find_best_buy : List Order → Option (Nat × Order)
  | [] => none
  | o :: rest =>
    match find_best_buy rest with
    | none => some (0, o)
    | some (k, b) => if b.price > o.price then some (k + 1, b) else some (0, o)

/-- Embedding of `find_best_sell` (src/exchange.c:160): as `find_best_buy` but keeping
the strictly lowest price. -/
def find_best_sell : List Order → Option (Nat × Order)
  | [] => none
  | o :: rest =>
    match find_best_sell rest with
    | none => some (0, o)
    | some (k, b) => if b.price < o.price then some (k + 1, b) else some (0, o)

/-- The matchmaker's trade-price rule (src/exchange.c:222-236) with
`min_price` the best sell limit and `max_price` the best buy limit.  The
sum `min_price + max_price` is computed in `uint32_t` and therefore
wraps modulo `2 ^ 32`. -/
def tradePrice (last min_price max_price : Nat) : Nat :=
  if last = 0 then ((min_price + max_price) % U32) / 2
  else if min_price ≤ last ∧ last ≤ max_price then last
  else if last < min_price then min_price
  else max_price

/-- Update (`some`) or unlink (`none`) the node at a position: the
matchmaker's in-place `quantity -= trade_qty` followed by the conditional
`remove_order` (src/exchange.c:177) on the node it holds. -/
def applyAt (f : Order → Option Order) : Nat → List Order → List Order
  | _, [] => []
  | 0, o :: rest =>
    match f o with
    | none => rest
    | some o2 => o2 :: rest
  | n + 1, o :: rest => o :: applyAt f n rest

/-- One iteration of the matchmaker loop body
(`matchmaker_thread_func`, src/exchange.c:208-335): pick the best buy and
sell; stop if either is missing or the prices do not cross; otherwise
trade `min` of the remaining quantities at `tradePrice`, decrement both
orders (removing ones that reach zero), credit the seller with
`trade_price * trade_qty` (a `uint32_t` product), credit the buyer's
inventory, and refund the buyer `trade_qty * (buy_limit - trade_price)`
when positive.  Ghost tallies record the seller's proceeds and the
buyer's purchase cost. -/
def matchExec (s : ExSt) (i : Nat) (bo : Order) (j : Nat) (so : Order) : ExSt :=
  if bo.price < so.price then s
  else
    let tp := tradePrice s.lastTradePrice so.price bo.price
    let t := min bo.quantity so.quantity
    let dec : Order → Option Order := fun o =>
      if o.quantity - t = 0 then none else some { o with quantity := o.quantity - t }
    let s1 := { s with
      buys := applyAt dec i s.buys,
      sells := applyAt dec j s.sells,
      lastTradePrice := tp }
    let s2 := updAcct s1 so.owner
      (fun a => account_increase_balance a ((tp * t) % U32))
    let s3 := updAcct s2 bo.owner (fun a => account_increase_inventory a t)
    let refund := (t * (bo.price - tp)) % U32
    let s4 := if 0 < refund then
        updAcct s3 bo.owner (fun a => account_increase_balance a refund)
      else s3
    { s4 with
      proceeds := bump s4.proceeds so.owner (tp * t),
      purchases := bump s4.purchases bo.owner (tp * t) }

/-- One iteration of the matchmaker loop dispatching on the two best
orders (the `buy_order == NULL || sell_order == NULL` break at
src/exchange.c:213). -/
def matchStep (s : ExSt) : ExSt :=
  match find_best_buy s.buys with
  | none => s
  | some (i, bo) =>
    match find_best_sell s.sells with
    | none => s
    | some (j, so) => matchExec s i bo j so

/-- Embedding of `exchange_post_buy` (src/exchange.c:374): reject a zero quantity or
price; encumber `quantity * price` — a `uint32_t` product, hence `% U32` —
through `account_decrease_balance`, rejecting on insufficient funds; then
prepend the order to the buy side under a fresh pre-incremented id.
Returns the order id (0 meaning rejected) with the post-state.  The
malloc-failure path (refund and reject) is not modelled: allocation is
assumed to succeed. -/
def exchange_post_buy (s : ExSt) (trader quantity price : Nat) : Nat × ExSt :=
  if quantity = 0 ∨ price = 0 then (0, s)
  else
    let maxCost := (quantity * price) % U32
    match account_decrease_balance (s.accounts trader) maxCost with
    | (false, _) => (0, s)
    | (true, a2) =>
      let s1 := { s with accounts := fun x => if x = trader then a2 else s.accounts x }
      (s.nextOrderId,
        { s1 with
          buys := (⟨s.nextOrderId, trader, quantity, price⟩ : Order) :: s1.buys,
          nextOrderId := s.nextOrderId + 1 })

/-- Embedding of `exchange_post_sell` (src/exchange.c:422): as `exchange_post_buy`,
but the encumbrance is `quantity` taken from the inventory. -/
def exchange_post_sell (s : ExSt) (trader quantity price : Nat) : Nat × ExSt :=
  if quantity = 0 ∨ price = 0 then (0, s)
  else
    match account_decrease_inventory (s.accounts trader) quantity with
    | (false, _) => (0, s)
    | (true, a2) =>
      let s1 := { s with accounts := fun x => if x = trader then a2 else s.accounts x }
      (s.nextOrderId,
        { s1 with
          sells := (⟨s.nextOrderId, trader, quantity, price⟩ : Order) :: s1.sells,
          nextOrderId := s.nextOrderId + 1 })

/-- Result of scanning one book side in `exchange_cancel`
(src/exchange.c:480 and 524): `notOwner` when the id matched but the
owner is someone else (the C returns -1 at once, without looking
further), `hit o rest` when the order was found owned by the caller and
unlinked, leaving `rest`. -/
inductive CancelScan where
  | notOwner : CancelScan
  | hit : Order → List Order → CancelScan
  deriving Repr, DecidableEq

/-- The search loop of `exchange_cancel` over one list. -/
def scanCancel (trader oid : Nat) : List Order → Option CancelScan
  | [] => none
  | o :: rest =>
    if o.id = oid then
      if o.owner ≠ trader then some .notOwner
      else some (.hit o rest)
    else
      match scanCancel trader oid rest with
      | none => none
      | some .notOwner => some .notOwner
      | some (.hit f rest2) => some (.hit f (o :: rest2))

/-- Embedding of `exchange_cancel` (src/exchange.c:469): search the buy side for the
order id — an owner mismatch returns not-found immediately; a hit removes
the order, refunds `quantity * price` (a `uint32_t` product) to the
balance and returns the remaining quantity.  Otherwise search the sell
side the same way, refunding `quantity` to the inventory.  Not-found and
not-owner are both `-1` in C, modelled as `none`; the state is unchanged
in both. -/
def exchange_cancel (s : ExSt) (trader oid : Nat) : Option (Nat × ExSt) :=
  match scanCancel trader oid s.buys with
  | some .notOwner => none
  | some (.hit o rest) =>
    some (o.quantity,
      updAcct { s with buys := rest } trader
        (fun a => account_increase_balance a ((o.quantity * o.price) % U32)))
  | none =>
    match scanCancel trader oid s.sells with
    | some .notOwner => none
    | some (.hit o rest) =>
      some (o.quantity,
        updAcct { s with sells := rest } trader
          (fun a => account_increase_inventory a o.quantity))
    | none => none

/-- One step of the buy-side teardown walk of `exchange_fini`
(src/exchange.c:107-118): refund the order's `quantity * price`
(a `uint32_t` product) to its owner's balance. -/
def finiRefundBuy (st : ExSt) (o : Order) : ExSt :=
  updAcct st o.owner
    (fun a => account_increase_balance a ((o.quantity * o.price) % U32))

/-- One step of the sell-side teardown walk of `exchange_fini`
(src/exchange.c:120-131): release the order's quantity back to its
owner's inventory. -/
def finiRefundSell (st : ExSt) (o : Order) : ExSt :=
  updAcct st o.owner (fun a => account_increase_inventory a o.quantity)

/-- The teardown of `exchange_fini` (src/exchange.c:94): walk both sides
refunding every remaining order exactly as the cancel path does, leaving
both book sides empty. -/
def exchange_fini (s : ExSt) : ExSt :=
  { s.sells.foldl finiRefundSell (s.buys.foldl finiRefundBuy s) with
    buys := [], sells := [] }

/-- The client-visible operations that touch funds, inventory or the
book, as dispatched by `brs_client_service` (src/server.c) plus the
matchmaker iteration and the exchange teardown. -/
inductive Op where
  | deposit (trader amount : Nat)
  | withdraw (trader amount : Nat)
  | escrow (trader quantity : Nat)
  | release (trader quantity : Nat)
  | postBuy (trader quantity price : Nat)
  | postSell (trader quantity price : Nat)
  | cancel (trader oid : Nat)
  | matchOrders
  | teardown

/-- One operation applied to the state.  Wire-decoded arguments are
`uint32_t` (`ntohl`), hence reduced `% U32` on entry.  DEPOSIT maps to
`account_increase_balance`, WITHDRAW to `account_decrease_balance`
(NACK leaves the state alone), ESCROW/RELEASE to the inventory
analogues (src/server.c:239-340), BUY/SELL/CANCEL to the exchange calls
(src/server.c:342-464). -/
def step (s : ExSt) : Op → ExSt
  | .deposit t amount =>
    let amt := amount % U32
    let s1 := updAcct s t (fun a => account_increase_balance a amt)
    { s1 with deposited := bump s1.deposited t amt }
  | .withdraw t amount =>
    let amt := amount % U32
    match account_decrease_balance (s.accounts t) amt with
    | (false, _) => s
    | (true, a2) =>
      { s with
        accounts := fun x => if x = t then a2 else s.accounts x,
        withdrawn := bump s.withdrawn t amt }
  | .escrow t quantity =>
    updAcct s t (fun a => account_increase_inventory a (quantity % U32))
  | .release t quantity =>
    match account_decrease_inventory (s.accounts t) (quantity % U32) with
    | (false, _) => s
    | (true, a2) =>
      { s with accounts := fun x => if x = t then a2 else s.accounts x }
  | .postBuy t quantity price => (exchange_post_buy s t (quantity % U32) (price % U32)).2
  | .postSell t quantity price => (exchange_post_sell s t (quantity % U32) (price % U32)).2
  | .cancel t oid =>
    match exchange_cancel s t (oid % U32) with
    | none => s
    | some (_, s2) => s2
  | .matchOrders => matchStep s
  | .teardown => exchange_fini s

/-- The exchange as created by `exchange_init` (src/exchange.c:54) with a
fresh account store: empty book, no last trade, order ids from 1, all
balances, inventories and tallies zero. -/
def initSt : ExSt :=
  { buys := [], sells := [], lastTradePrice := 0, nextOrderId := 1,
    accounts := fun _ => ⟨0, 0⟩, deposited := fun _ => 0, withdrawn := fun _ => 0,
    proceeds := fun _ => 0, purchases := fun _ => 0 }

/-- Run a sequence of operations from the initial state. -/
def run (ops : List Op) : ExSt := ops.foldl step initSt

/-- Cash encumbered in the open buy orders of trader `t`:
sum of `remaining_quantity * limit_price` (exact product). -/
def buyCash (t : Nat) : List Order → Nat
  | [] => 0
  | o :: rest => (if o.owner = t then o.quantity * o.price else 0) + buyCash t rest

/-- Conservation of cash, corrected: for trader `t`, balance plus
encumbered buy cash plus everything that ever left as withdrawals or
purchase costs is congruent modulo `2 ^ 32` to everything that ever
arrived as deposits or sale proceeds.  (Congruence rather than equality
because every balance mutation is `uint32_t` arithmetic.) -/
def cashInv (s : ExSt) (t : Nat) : Prop :=
  (s.accounts t).balance + buyCash t s.buys + s.withdrawn t + s.purchases t
    ≡ s.deposited t + s.proceeds t [MOD U32]

/-- S1 scenario helper: the account state reached from a fresh account
(balance 0) after `DEPOSIT 1000` and a successful `WITHDRAW 400`
(src/server.c dispatches DEPOSIT to `account_increase_balance` and
WITHDRAW to `account_decrease_balance`). -/
def s1Account : Account :=
  (account_decrease_balance (account_increase_balance ⟨0, 0⟩ 1000) 400).2

/-! ## Scenario operation sequences used by concrete theorems -/

/-- Scenario S3 of the specification: alice (trader 0) deposits 10000,
bob (trader 1) escrows 10 shares, bob posts SELL 10 @ 50, alice posts
BUY 10 @ 100, and the matchmaker runs. -/
def s3Ops : List Op :=
  [.deposit 0 10000, .escrow 1 10, .postSell 1 10 50, .postBuy 0 10 100, .matchOrders]

/-- Scenario S3 stopped just before the matchmaker runs: the book holds
bob's SELL 10 @ 50 (id 1) and alice's BUY 10 @ 100 (id 2). -/
def s3PostedOps : List Op :=
  [.deposit 0 10000, .escrow 1 10, .postSell 1 10 50, .postBuy 0 10 100]

/-- A run crossing SELL 1 @ 2^31 with BUY 1 @ 2^31 on a book with no
prior trade: the `uint32_t` sum `min_price + max_price` wraps to 0. -/
def midWrapOps : List Op :=
  [.escrow 1 1, .postSell 1 1 2147483648, .deposit 0 2147483648,
   .postBuy 0 1 2147483648, .matchOrders]

/-- Two BUY orders at the same limit price 100 (ids 1 then 2) and two
SELL orders at the same limit price 200 (ids 3 then 4), so that the
book holds a price tie on each side. -/
def tieOps : List Op :=
  [.deposit 0 1000, .deposit 1 1000, .postBuy 0 5 100, .postBuy 1 5 100,
   .escrow 2 5, .escrow 3 5, .postSell 2 5 200, .postSell 3 5 200]

/-- A book for exercising `exchange_cancel`: carol (trader 0) posts
BUY 5 @ 100 (order 1), dave (trader 1) posts SELL 7 @ 9 (order 2); the
prices do not cross, so the book is stable. -/
def cancelDemoSt : ExSt :=
  run [.deposit 0 500, .postBuy 0 5 100, .escrow 1 7, .postSell 1 7 9]

/-! ## Trader sessions (src/trader.c) -/

/-- The name→session map of src/trader.c (`trader_map` with
`trader_count` live entries).  A session is represented by the name it
logged in with; the rest of `struct trader` (fd, account, mutex,
refcount) does not matter for whose names are in the map.
The compile-time capacity `MAX_TRADERS` (declared in a header not under
src/) is passed as the `maxTraders` parameter. -/
structure TraderMap where
  entries : List String
  deriving Repr, DecidableEq

/-- Embedding of `trader_login` (src/trader.c:95): fail when `trader_count` has
reached `MAX_TRADERS` (or on allocation failure — not modelled:
allocation succeeds), otherwise unconditionally append a new session
under `name` at `trader_map[trader_count]`.  The function performs no
lookup of `name` among the existing entries.  `account_lookup` is
idempotent per name (src/account.c:55), so on a repeated name it returns
the existing account and cannot fail. -/
def trader_login (m : TraderMap) (name : String) (maxTraders : Nat) : Option TraderMap :=
  if maxTraders ≤ m.entries.length then none
  else some ⟨m.entries ++ [name]⟩

/-- Reference-count view of one trader session.  `live rc` is an
allocated session whose `refcount` field is `rc`; `freed` is a session
whose final unref closed the socket and freed it; `aborted` marks
undefined behavior — the negative-refcount `abort()` of `trader_unref`
(src/trader.c:229) or any operation on an already-freed session. -/
inductive SessionSt where
  | live : Nat → SessionSt
  | freed : SessionSt
  | aborted : SessionSt
  deriving Repr, DecidableEq

/-- Embedding of `trader_unref` (src/trader.c:218): decrement `refcount`; `abort()` if
it went negative; when it reaches zero, close the socket and free the
session.  Touching a freed session is undefined behavior, folded into
`aborted`. -/
def trader_unref : SessionSt → SessionSt
  | .live rc => if rc = 0 then .aborted else if rc = 1 then .freed else .live (rc - 1)
  | .freed => .aborted
  | .aborted => .aborted

/-- Embedding of `trader_logout` (src/trader.c:174): remove the session from
`trader_map`, then `trader_unref` once ("consumes one reference").
Only the refcount effect is modelled here. -/
def trader_logout (s : SessionSt) : SessionSt := trader_unref s

/-- The cleanup path of `brs_client_service` (src/server.c:475-478) for a
logged-in trader: `trader_logout(trader)` followed by
`trader_unref(trader, "client disconnect")`. -/
def servicer_cleanup (s : SessionSt) : SessionSt := trader_unref (trader_logout s)

/-! ## Broadcast fan-out (src/trader.c:297) -/

/-- Accumulator of the send loop of `trader_broadcast_packet`
(src/trader.c:338-359): the sessions attempted so far and the running
result (0, set to -1 when any send has failed). -/
structure BcastSt (τ : Type) where
  attempted : List τ
  result : Int
  deriving Repr, DecidableEq

/-- One iteration of the send loop: attempt the send to this session
(recording it), set `result = -1` if the send failed, keep going either
way; the per-session ref taken at snapshot time is released right after
the send. -/
def broadcast_send_step {τ : Type} (send : τ → Bool) (st : BcastSt τ) (tr : τ) : BcastSt τ :=
  { attempted := st.attempted ++ [tr],
    result := if send tr then st.result else -1 }

/-- Embedding of `trader_broadcast_packet` (src/trader.c:297): snapshot the logged-in
sessions under the map lock (one ref per session), drop the lock, then
run the send loop over the whole snapshot.  `send` abstracts whether
`trader_send_packet` succeeds for a given session. -/
def trader_broadcast_packet {τ : Type} (snapshot : List τ) (send : τ → Bool) : BcastSt τ :=
  snapshot.foldl (broadcast_send_step send) ⟨[], 0⟩

/-! ## Client registry (src/client_registry.c) -/

/-- The capacity `MAX_CLIENTS` (src/client_registry.c:20). -/
def MAX_CLIENTS : Nat := 1024

/-- Embedding of `struct client_registry` (src/client_registry.c:22): the registered
fds and the current value of the counting semaphore `empty_sem`, which
starts at 0 and is posted by `creg_unregister` on each transition of the
count to zero. -/
structure Creg where
  fds : List Nat
  emptySem : Nat
  deriving Repr, DecidableEq

/-- Embedding of `creg_register` (src/client_registry.c:80): append the fd unless the
capacity is reached (failure leaves the registry unchanged). -/
def creg_register (cr : Creg) (fd : Nat) : Creg :=
  if MAX_CLIENTS ≤ cr.fds.length then cr else { cr with fds := cr.fds ++ [fd] }

/-- Embedding of `creg_unregister` (src/client_registry.c:106): remove the first entry
holding `fd` (the C moves the last entry into the hole; only the
multiset of fds matters here) and post `empty_sem` if the count reached
zero; an fd that is not registered leaves the registry unchanged. -/
def creg_unregister (cr : Creg) (fd : Nat) : Creg :=
  if fd ∈ cr.fds then
    let rest := cr.fds.erase fd
    { fds := rest,
      emptySem := if rest.length = 0 then cr.emptySem + 1 else cr.emptySem }
  else cr

/-- Whether `creg_wait_for_empty` (src/client_registry.c:145) returns
without blocking: it returns at once when `count == 0`, and otherwise
calls `sem_wait(&empty_sem)`, which returns without blocking exactly
when the semaphore value is positive (consuming one unit). -/
def creg_wait_returns_without_blocking (cr : Creg) : Bool :=
  cr.fds.length = 0 || 0 < cr.emptySem

/-- The registry history that strands a stale `empty_sem` post: client 3
registers and unregisters (count touches zero, semaphore posted), then
client 4 registers. -/
def staleSemTrace : Creg :=
  creg_register (creg_unregister (creg_register ⟨[], 0⟩ 3) 3) 4

end Bourse

namespace Bourse

/-! ## Helper lemmas -/

theorem buyCash_cons (t : Nat) (o : Order) (l : List Order) :
    buyCash t (o :: l) =
      (if o.owner = t then o.quantity * o.price else 0) + buyCash t l := rfl

/-- The position returned by `find_best_buy` really carries the returned
order. -/
theorem find_best_buy_get :
    ∀ (l : List Order) (k : Nat) (b : Order),
      find_best_buy l = some (k, b) → l.get? k = some b := by
  intro l
  induction l with
  | nil =>
    intro k b h
    simp [find_best_buy] at h
  | cons o rest ih =>
    intro k b h
    rw [find_best_buy] at h
    cases hr : find_best_buy rest with
    | none =>
      rw [hr] at h
      simp only [Option.some.injEq, Prod.mk.injEq] at h
      obtain ⟨hk, hb⟩ := h
      subst hk; subst hb
      rfl
    | some kb =>
      obtain ⟨k2, b2⟩ := kb
      rw [hr] at h
      change (if b2.price > o.price then some (k2 + 1, b2)
        else some (0, o)) = some (k, b) at h
      by_cases hp : b2.price > o.price
      · rw [if_pos hp] at h
        simp only [Option.some.injEq, Prod.mk.injEq] at h
        obtain ⟨hk, hb⟩ := h
        subst hk; subst hb
        simpa using ih k2 b2 hr
      · rw [if_neg hp] at h
        simp only [Option.some.injEq, Prod.mk.injEq] at h
        obtain ⟨hk, hb⟩ := h
        subst hk; subst hb
        rfl

/-- The position returned by `find_best_sell` really carries the
returned order. -/
theorem find_best_sell_get :
    ∀ (l : List Order) (k : Nat) (b : Order),
      find_best_sell l = some (k, b) → l.get? k = some b := by
  intro l
  induction l with
  | nil =>
    intro k b h
    simp [find_best_sell] at h
  | cons o rest ih =>
    intro k b h
    rw [find_best_sell] at h
    cases hr : find_best_sell rest with
    | none =>
      rw [hr] at h
      simp only [Option.some.injEq, Prod.mk.injEq] at h
      obtain ⟨hk, hb⟩ := h
      subst hk; subst hb
      rfl
    | some kb =>
      obtain ⟨k2, b2⟩ := kb
      rw [hr] at h
      change (if b2.price < o.price then some (k2 + 1, b2)
        else some (0, o)) = some (k, b) at h
      by_cases hp : b2.price < o.price
      · rw [if_pos hp] at h
        simp only [Option.some.injEq, Prod.mk.injEq] at h
        obtain ⟨hk, hb⟩ := h
        subst hk; subst hb
        simpa using ih k2 b2 hr
      · rw [if_neg hp] at h
        simp only [Option.some.injEq, Prod.mk.injEq] at h
        obtain ⟨hk, hb⟩ := h
        subst hk; subst hb
        rfl

/-- The trade price never exceeds the buyer's limit (when the orders
cross). -/
theorem tradePrice_le_max (last min_p max_p : Nat) (h : min_p ≤ max_p) :
    tradePrice last min_p max_p ≤ max_p := by
  unfold tradePrice
  by_cases h0 : last = 0
  · rw [if_pos h0]
    have h1 : (min_p + max_p) % U32 ≤ min_p + max_p := Nat.mod_le _ _
    omega
  · rw [if_neg h0]
    by_cases h1 : min_p ≤ last ∧ last ≤ max_p
    · rw [if_pos h1]
      exact h1.2
    · rw [if_neg h1]
      by_cases h2 : last < min_p
      · rw [if_pos h2]
        exact h
      · rw [if_neg h2]

/-- Effect of an in-place update / conditional removal at a known
position on the encumbered buy cash. -/
theorem buyCash_applyAt (t : Nat) (f : Order → Option Order) :
    ∀ (l : List Order) (i : Nat) (o : Order), l.get? i = some o →
      buyCash t (applyAt f i l) +
          (if o.owner = t then o.quantity * o.price else 0) =
        buyCash t l +
          (match f o with
           | none => 0
           | some o2 => if o2.owner = t then o2.quantity * o2.price else 0) := by
  intro l
  induction l with
  | nil =>
    intro i o h
    simp at h
  | cons a rest ih =>
    intro i o h
    cases i with
    | zero =>
      simp only [List.get?_cons_zero, Option.some.injEq] at h
      rcases h with rfl
      cases hf : f a with
      | none =>
        simp only [applyAt, hf, buyCash_cons]
        omega
      | some o2 =>
        simp only [applyAt, hf, buyCash_cons]
        omega
    | succ n =>
      simp only [List.get?_cons_succ] at h
      have := ih n o h
      simp only [applyAt, buyCash_cons]
      omega

theorem cashInv_deposit (s : ExSt) (tr amount t : Nat) (h : cashInv s t) :
    cashInv (step s (.deposit tr amount)) t := by
  unfold cashInv at h ⊢
  unfold Nat.ModEq at h ⊢
  simp only [step, updAcct, bump, account_increase_balance, U32] at h ⊢
  by_cases hx : t = tr
  · simp only [if_pos hx]
    omega
  · simp only [if_neg hx]
    omega

theorem cashInv_withdraw (s : ExSt) (tr amount t : Nat) (h : cashInv s t) :
    cashInv (step s (.withdraw tr amount)) t := by
  unfold cashInv at h ⊢
  unfold Nat.ModEq at h ⊢
  simp only [step, account_decrease_balance, U32] at h ⊢
  by_cases hle : amount % 4294967296 ≤ (s.accounts tr).balance
  · simp only [if_pos hle, bump]
    by_cases hx : t = tr
    · simp only [if_pos hx]
      subst hx
      omega
    · simp only [if_neg hx]
      omega
  · simp only [if_neg hle]
    omega

theorem cashInv_escrow (s : ExSt) (tr quantity t : Nat) (h : cashInv s t) :
    cashInv (step s (.escrow tr quantity)) t := by
  unfold cashInv at h ⊢
  simp only [step, updAcct, account_increase_inventory]
  by_cases hx : t = tr
  · simp only [if_pos hx]
    subst hx
    exact h
  · simp only [if_neg hx]
    exact h

theorem cashInv_release (s : ExSt) (tr quantity t : Nat) (h : cashInv s t) :
    cashInv (step s (.release tr quantity)) t := by
  unfold cashInv at h ⊢
  simp only [step, account_decrease_inventory]
  by_cases hle : quantity % U32 ≤ (s.accounts tr).inventory
  · simp only [if_pos hle]
    by_cases hx : t = tr
    · simp only [if_pos hx]
      subst hx
      exact h
    · simp only [if_neg hx]
      exact h
  · simp only [if_neg hle]
    exact h

theorem cashInv_postBuy (s : ExSt) (tr q p t : Nat) (h : cashInv s t) :
    cashInv (step s (.postBuy tr q p)) t := by
  unfold cashInv at h ⊢
  unfold Nat.ModEq at h ⊢
  simp only [step, exchange_post_buy, account_decrease_balance, U32] at h ⊢
  by_cases h0 : q % 4294967296 = 0 ∨ p % 4294967296 = 0
  · simp only [if_pos h0]
    omega
  · simp only [if_neg h0]
    by_cases hle :
        q % 4294967296 * (p % 4294967296) % 4294967296 ≤ (s.accounts tr).balance
    · simp only [if_pos hle, buyCash_cons]
      by_cases hx : t = tr
      · subst hx
        simp only [if_pos rfl, if_true, eq_self_iff_true]
        omega
      · have hne : ¬(tr = t) := fun hh => hx hh.symm
        simp only [if_neg hx, if_neg hne]
        omega
    · simp only [if_neg hle]
      omega

theorem cashInv_postSell (s : ExSt) (tr q p t : Nat) (h : cashInv s t) :
    cashInv (step s (.postSell tr q p)) t := by
  unfold cashInv at h ⊢
  unfold Nat.ModEq at h ⊢
  simp only [step, exchange_post_sell, account_decrease_inventory, U32] at h ⊢
  by_cases h0 : q % 4294967296 = 0 ∨ p % 4294967296 = 0
  · simp only [if_pos h0]
    omega
  · simp only [if_neg h0]
    by_cases hle : q % 4294967296 ≤ (s.accounts tr).inventory
    · simp only [if_pos hle]
      by_cases hx : t = tr
      · subst hx
        simp only [if_pos rfl, if_true, eq_self_iff_true]
        omega
      · simp only [if_neg hx]
        omega
    · simp only [if_neg hle]
      omega

/-- A hit returned by `scanCancel` is owned by the caller, and removing
it takes exactly its contribution out of the encumbered buy cash. -/
theorem scanCancel_hit_spec (tr oid : Nat) :
    ∀ (l : List Order) (o : Order) (rest : List Order),
      scanCancel tr oid l = some (.hit o rest) →
      o.owner = tr ∧
      ∀ t, buyCash t rest + (if o.owner = t then o.quantity * o.price else 0) =
        buyCash t l := by
  intro l
  induction l with
  | nil =>
    intro o rest h
    simp [scanCancel] at h
  | cons a as ih =>
    intro o rest h
    rw [scanCancel] at h
    by_cases hid : a.id = oid
    · rw [if_pos hid] at h
      by_cases how : a.owner ≠ tr
      · rw [if_pos how] at h
        simp at h
      · rw [if_neg how] at h
        simp only [Option.some.injEq] at h
        injection h with h1 h2
        subst h1
        subst h2
        refine ⟨not_not.mp how, fun t => ?_⟩
        rw [buyCash_cons]
        omega
    · rw [if_neg hid] at h
      cases hr : scanCancel tr oid as with
      | none =>
        rw [hr] at h
        simp at h
      | some c =>
        cases c with
        | notOwner =>
          rw [hr] at h
          simp at h
        | hit o2 rest2 =>
          rw [hr] at h
          have h3 : some (CancelScan.hit o2 (a :: rest2)) =
              some (CancelScan.hit o rest) := h
          simp only [Option.some.injEq] at h3
          injection h3 with h4 h5
          subst h4
          subst h5
          obtain ⟨hown, hbc⟩ := ih o2 rest2 hr
          refine ⟨hown, fun t => ?_⟩
          rw [buyCash_cons, buyCash_cons]
          have := hbc t
          omega

theorem cashInv_cancel (s : ExSt) (tr oid t : Nat) (h : cashInv s t) :
    cashInv (step s (.cancel tr oid)) t := by
  unfold cashInv at h ⊢
  simp only [step]
  cases hc : exchange_cancel s tr (oid % U32) with
  | none => exact h
  | some res =>
    obtain ⟨qty, s2⟩ := res
    unfold exchange_cancel at hc
    cases hb : scanCancel tr (oid % U32) s.buys with
    | some c =>
      cases c with
      | notOwner =>
        rw [hb] at hc
        simp at hc
      | hit o rest =>
        rw [hb] at hc
        have hc2 : some (o.quantity,
            updAcct { s with buys := rest } tr
              (fun a => account_increase_balance a ((o.quantity * o.price) % U32)))
            = some (qty, s2) := hc
        simp only [Option.some.injEq, Prod.mk.injEq] at hc2
        obtain ⟨hq, hs2⟩ := hc2
        subst hs2
        obtain ⟨hown, hbc⟩ := scanCancel_hit_spec tr (oid % U32) s.buys o rest hb
        have hbct := hbc t
        unfold Nat.ModEq at h ⊢
        simp only [updAcct, account_increase_balance, U32] at h ⊢
        by_cases hx : t = tr
        · subst hx
          simp only [if_pos rfl, if_true, eq_self_iff_true]
          rw [if_pos hown] at hbct
          omega
        · simp only [if_neg hx]
          rw [if_neg (fun hh : o.owner = t => hx (hh.symm.trans hown))] at hbct
          omega
    | none =>
      rw [hb] at hc
      cases hsl : scanCancel tr (oid % U32) s.sells with
      | none =>
        rw [hsl] at hc
        simp at hc
      | some c =>
        cases c with
        | notOwner =>
          rw [hsl] at hc
          simp at hc
        | hit o rest =>
          rw [hsl] at hc
          have hc2 : some (o.quantity,
              updAcct { s with sells := rest } tr
                (fun a => account_increase_inventory a o.quantity))
              = some (qty, s2) := hc
          simp only [Option.some.injEq, Prod.mk.injEq] at hc2
          obtain ⟨hq, hs3⟩ := hc2
          subst hs3
          simp only [updAcct, account_increase_inventory]
          by_cases hx : t = tr
          · subst hx
            simp only [if_pos rfl]
            exact h
          · simp only [if_neg hx]
            exact h

theorem cashInv_matchExec (s : ExSt) (i : Nat) (bo : Order) (j : Nat) (so : Order)
    (t : Nat) (hget : s.buys.get? i = some bo) (h : cashInv s t) :
    cashInv (matchExec s i bo j so) t := by
  unfold cashInv at h ⊢
  unfold matchExec
  by_cases hcross : bo.price < so.price
  · rw [if_pos hcross]
    exact h
  · rw [if_neg hcross]
    have hso : so.price ≤ bo.price := Nat.not_lt.mp hcross
    have htple := tradePrice_le_max s.lastTradePrice so.price bo.price hso
    have hqmin : min bo.quantity so.quantity ≤ bo.quantity := Nat.min_le_left _ _
    have hbuy := buyCash_applyAt t
      (fun o => if o.quantity - min bo.quantity so.quantity = 0 then none
        else some { o with quantity := o.quantity - min bo.quantity so.quantity })
      s.buys i bo hget
    have hsub : min bo.quantity so.quantity *
          (bo.price - tradePrice s.lastTradePrice so.price bo.price) +
        min bo.quantity so.quantity * tradePrice s.lastTradePrice so.price bo.price =
        min bo.quantity so.quantity * bo.price := by
      rw [← Nat.mul_add, Nat.sub_add_cancel htple]
    have hcomm : tradePrice s.lastTradePrice so.price bo.price *
          min bo.quantity so.quantity =
        min bo.quantity so.quantity * tradePrice s.lastTradePrice so.price bo.price :=
      Nat.mul_comm _ _
    have hqsub : (bo.quantity - min bo.quantity so.quantity) * bo.price +
        min bo.quantity so.quantity * bo.price = bo.quantity * bo.price := by
      rw [← Nat.add_mul, Nat.sub_add_cancel hqmin]
    by_cases hz : bo.quantity - min bo.quantity so.quantity = 0
    · simp only [if_pos hz] at hbuy
      have ho : (bo.quantity - min bo.quantity so.quantity) * bo.price = 0 := by
        rw [hz, Nat.zero_mul]
      simp only [updAcct, bump, account_increase_balance, account_increase_inventory]
      set A := min bo.quantity so.quantity * tradePrice s.lastTradePrice so.price bo.price
      set B := tradePrice s.lastTradePrice so.price bo.price * min bo.quantity so.quantity
      set C := min bo.quantity so.quantity * (bo.price - tradePrice s.lastTradePrice so.price bo.price)
      set D := min bo.quantity so.quantity * bo.price
      set E := (bo.quantity - min bo.quantity so.quantity) * bo.price
      set F := bo.quantity * bo.price
      clear_value A B C D E F
      by_cases hr0 : 0 < C % U32
      · by_cases hxB : t = bo.owner
        · by_cases hxS : t = so.owner
          · simp only [if_pos hr0, if_pos hxB, if_pos hxS]
            simp only [if_pos hxB.symm] at hbuy
            unfold Nat.ModEq at h ⊢
            simp only [U32] at h hr0 ⊢
            omega
          · simp only [if_pos hr0, if_pos hxB, if_neg hxS]
            simp only [if_pos hxB.symm] at hbuy
            unfold Nat.ModEq at h ⊢
            simp only [U32] at h hr0 ⊢
            omega
        · by_cases hxS : t = so.owner
          · simp only [if_pos hr0, if_neg hxB, if_pos hxS]
            simp only [if_neg (fun hh : bo.owner = t => hxB hh.symm)] at hbuy
            unfold Nat.ModEq at h ⊢
            simp only [U32] at h hr0 ⊢
            omega
          · simp only [if_pos hr0, if_neg hxB, if_neg hxS]
            simp only [if_neg (fun hh : bo.owner = t => hxB hh.symm)] at hbuy
            unfold Nat.ModEq at h ⊢
            simp only [U32] at h hr0 ⊢
            omega
      · by_cases hxB : t = bo.owner
        · by_cases hxS : t = so.owner
          · simp only [if_neg hr0, if_pos hxB, if_pos hxS]
            simp only [if_pos hxB.symm] at hbuy
            unfold Nat.ModEq at h ⊢
            simp only [U32] at h hr0 ⊢
            omega
          · simp only [if_neg hr0, if_pos hxB, if_neg hxS]
            simp only [if_pos hxB.symm] at hbuy
            unfold Nat.ModEq at h ⊢
            simp only [U32] at h hr0 ⊢
            omega
        · by_cases hxS : t = so.owner
          · simp only [if_neg hr0, if_neg hxB, if_pos hxS]
            simp only [if_neg (fun hh : bo.owner = t => hxB hh.symm)] at hbuy
            unfold Nat.ModEq at h ⊢
            simp only [U32] at h hr0 ⊢
            omega
          · simp only [if_neg hr0, if_neg hxB, if_neg hxS]
            simp only [if_neg (fun hh : bo.owner = t => hxB hh.symm)] at hbuy
            unfold Nat.ModEq at h ⊢
            simp only [U32] at h hr0 ⊢
            omega
    · simp only [if_neg hz] at hbuy
      simp only [updAcct, bump, account_increase_balance, account_increase_inventory]
      set A := min bo.quantity so.quantity * tradePrice s.lastTradePrice so.price bo.price
      set B := tradePrice s.lastTradePrice so.price bo.price * min bo.quantity so.quantity
      set C := min bo.quantity so.quantity * (bo.price - tradePrice s.lastTradePrice so.price bo.price)
      set D := min bo.quantity so.quantity * bo.price
      set E := (bo.quantity - min bo.quantity so.quantity) * bo.price
      set F := bo.quantity * bo.price
      clear_value A B C D E F
      by_cases hr0 : 0 < C % U32
      · by_cases hxB : t = bo.owner
        · by_cases hxS : t = so.owner
          · simp only [if_pos hr0, if_pos hxB, if_pos hxS]
            simp only [if_pos hxB.symm] at hbuy
            unfold Nat.ModEq at h ⊢
            simp only [U32] at h hr0 ⊢
            omega
          · simp only [if_pos hr0, if_pos hxB, if_neg hxS]
            simp only [if_pos hxB.symm] at hbuy
            unfold Nat.ModEq at h ⊢
            simp only [U32] at h hr0 ⊢
            omega
        · by_cases hxS : t = so.owner
          · simp only [if_pos hr0, if_neg hxB, if_pos hxS]
            simp only [if_neg (fun hh : bo.owner = t => hxB hh.symm)] at hbuy
            unfold Nat.ModEq at h ⊢
            simp only [U32] at h hr0 ⊢
            omega
          · simp only [if_pos hr0, if_neg hxB, if_neg hxS]
            simp only [if_neg (fun hh : bo.owner = t => hxB hh.symm)] at hbuy
            unfold Nat.ModEq at h ⊢
            simp only [U32] at h hr0 ⊢
            omega
      · by_cases hxB : t = bo.owner
        · by_cases hxS : t = so.owner
          · simp only [if_neg hr0, if_pos hxB, if_pos hxS]
            simp only [if_pos hxB.symm] at hbuy
            unfold Nat.ModEq at h ⊢
            simp only [U32] at h hr0 ⊢
            omega
          · simp only [if_neg hr0, if_pos hxB, if_neg hxS]
            simp only [if_pos hxB.symm] at hbuy
            unfold Nat.ModEq at h ⊢
            simp only [U32] at h hr0 ⊢
            omega
        · by_cases hxS : t = so.owner
          · simp only [if_neg hr0, if_neg hxB, if_pos hxS]
            simp only [if_neg (fun hh : bo.owner = t => hxB hh.symm)] at hbuy
            unfold Nat.ModEq at h ⊢
            simp only [U32] at h hr0 ⊢
            omega
          · simp only [if_neg hr0, if_neg hxB, if_neg hxS]
            simp only [if_neg (fun hh : bo.owner = t => hxB hh.symm)] at hbuy
            unfold Nat.ModEq at h ⊢
            simp only [U32] at h hr0 ⊢
            omega

theorem cashInv_match (s : ExSt) (t : Nat) (h : cashInv s t) :
    cashInv (step s .matchOrders) t := by
  show cashInv (matchStep s) t
  unfold matchStep
  cases hb : find_best_buy s.buys with
  | none => exact h
  | some kb =>
    obtain ⟨i, bo⟩ := kb
    cases hsl : find_best_sell s.sells with
    | none => exact h
    | some ks =>
      obtain ⟨j, so⟩ := ks
      exact cashInv_matchExec s i bo j so t (find_best_buy_get _ _ _ hb) h

/-- The buy-side teardown fold touches only the accounts. -/
theorem finiRefundBuy_fold_fields :
    ∀ (l : List Order) (s : ExSt),
      (l.foldl finiRefundBuy s).buys = s.buys ∧
      (l.foldl finiRefundBuy s).deposited = s.deposited ∧
      (l.foldl finiRefundBuy s).withdrawn = s.withdrawn ∧
      (l.foldl finiRefundBuy s).proceeds = s.proceeds ∧
      (l.foldl finiRefundBuy s).purchases = s.purchases := by
  intro l
  induction l with
  | nil => intro s; exact ⟨rfl, rfl, rfl, rfl, rfl⟩
  | cons o rest ih =>
    intro s
    rw [List.foldl_cons]
    exact ih (finiRefundBuy s o)

/-- The buy-side teardown fold adds every owned refund (mod 2^32) to the
balance. -/
theorem finiRefundBuy_fold_balance (t : Nat) :
    ∀ (l : List Order) (s : ExSt),
      ((l.foldl finiRefundBuy s).accounts t).balance ≡
        (s.accounts t).balance + buyCash t l [MOD U32] := by
  intro l
  induction l with
  | nil =>
    intro s
    simpa [buyCash] using Nat.ModEq.refl ((s.accounts t).balance)
  | cons o rest ih =>
    intro s
    rw [List.foldl_cons, buyCash_cons]
    refine (ih (finiRefundBuy s o)).trans ?_
    have hstep : ((finiRefundBuy s o).accounts t).balance ≡
        (s.accounts t).balance +
          (if o.owner = t then o.quantity * o.price else 0) [MOD U32] := by
      unfold finiRefundBuy updAcct account_increase_balance
      by_cases hx : t = o.owner
      · simp only [if_pos hx, if_pos hx.symm]
        unfold Nat.ModEq
        simp only [U32]
        omega
      · simp only [if_neg hx, if_neg (fun hh : o.owner = t => hx hh.symm)]
        simpa using Nat.ModEq.refl ((s.accounts t).balance)
    have h2 := Nat.ModEq.add_right (buyCash t rest) hstep
    calc ((finiRefundBuy s o).accounts t).balance + buyCash t rest
        ≡ (s.accounts t).balance +
            (if o.owner = t then o.quantity * o.price else 0) +
            buyCash t rest [MOD U32] := h2
      _ = (s.accounts t).balance +
            ((if o.owner = t then o.quantity * o.price else 0) + buyCash t rest) := by
          omega

/-- The sell-side teardown fold changes no cash-relevant field. -/
theorem finiRefundSell_fold_cash (t : Nat) :
    ∀ (l : List Order) (s : ExSt),
      ((l.foldl finiRefundSell s).accounts t).balance = (s.accounts t).balance ∧
      (l.foldl finiRefundSell s).deposited = s.deposited ∧
      (l.foldl finiRefundSell s).withdrawn = s.withdrawn ∧
      (l.foldl finiRefundSell s).proceeds = s.proceeds ∧
      (l.foldl finiRefundSell s).purchases = s.purchases := by
  intro l
  induction l with
  | nil => intro s; exact ⟨rfl, rfl, rfl, rfl, rfl⟩
  | cons o rest ih =>
    intro s
    rw [List.foldl_cons]
    obtain ⟨h1, h2, h3, h4, h5⟩ := ih (finiRefundSell s o)
    refine ⟨h1.trans ?_, h2, h3, h4, h5⟩
    unfold finiRefundSell updAcct account_increase_inventory
    by_cases hx : t = o.owner
    · simp only [if_pos hx]
    · simp only [if_neg hx]

theorem cashInv_fini (s : ExSt) (t : Nat) (h : cashInv s t) :
    cashInv (step s .teardown) t := by
  unfold cashInv at h ⊢
  simp only [step, exchange_fini]
  obtain ⟨hb1, hd1, hw1, hp1, hu1⟩ := finiRefundBuy_fold_fields s.buys s
  obtain ⟨hbal2, hd2, hw2, hp2, hu2⟩ :=
    finiRefundSell_fold_cash t s.sells (s.buys.foldl finiRefundBuy s)
  have hbal1 := finiRefundBuy_fold_balance t s.buys s
  rw [hbal2, hd2, hd1, hw2, hw1, hp2, hp1, hu2, hu1]
  unfold Nat.ModEq at h hbal1 ⊢
  simp only [U32] at h hbal1 ⊢
  simp only [buyCash]
  omega

theorem cashInv_init (t : Nat) : cashInv initSt t := rfl

theorem cashInv_step (s : ExSt) (op : Op) (t : Nat) (h : cashInv s t) :
    cashInv (step s op) t := by
  cases op with
  | deposit tr amount => exact cashInv_deposit s tr amount t h
  | withdraw tr amount => exact cashInv_withdraw s tr amount t h
  | escrow tr quantity => exact cashInv_escrow s tr quantity t h
  | release tr quantity => exact cashInv_release s tr quantity t h
  | postBuy tr quantity price => exact cashInv_postBuy s tr quantity price t h
  | postSell tr quantity price => exact cashInv_postSell s tr quantity price t h
  | cancel tr oid => exact cashInv_cancel s tr oid t h
  | matchOrders => exact cashInv_match s t h
  | teardown => exact cashInv_fini s t h

theorem cashInv_run_aux (t : Nat) :
    ∀ (ops : List Op) (s : ExSt), cashInv s t → cashInv (ops.foldl step s) t := by
  intro ops
  induction ops with
  | nil => intro s hs; exact hs
  | cons op rest ih =>
    intro s hs
    exact ih (step s op) (cashInv_step s op t hs)

/-- C6: `account_decrease_balance` is a compare-and-subtract that on
insufficient funds leaves the account untouched; analogously for
`account_decrease_inventory`; and in scenario S1 (DEPOSIT 1000,
WITHDRAW 400, WITHDRAW 700) the third request fails and the balance
stays 600. -/
theorem decrease_balance_compare_and_subtract
    (a : Account) (amount : Nat) :
    (amount ≤ a.balance →
      account_decrease_balance a amount =
        (true, { a with balance := a.balance - amount })) ∧
    (a.balance < amount →
      account_decrease_balance a amount = (false, a)) ∧
    (amount ≤ a.inventory →
      account_decrease_inventory a amount =
        (true, { a with inventory := a.inventory - amount })) ∧
    (a.inventory < amount →
      account_decrease_inventory a amount = (false, a)) ∧
    (s1Account.balance = 600 ∧
      account_decrease_balance s1Account 700 = (false, s1Account)) := by
  refine ⟨fun h => ?_, fun h => ?_, fun h => ?_, fun h => ?_, by decide⟩
  · simp [account_decrease_balance, h]
  · simp [account_decrease_balance, Nat.not_le.mpr h, not_le_of_lt h]
  · simp [account_decrease_inventory, h]
  · simp [account_decrease_inventory, Nat.not_le.mpr h, not_le_of_lt h]

/-- Witness for `decrease_balance_compare_and_subtract` at concrete
values: balance 600, successful decrease by 400, failing decrease by 700,
and the inventory analogues. -/
theorem decrease_balance_compare_and_subtract_witness :
    (account_decrease_balance ⟨600, 30⟩ 400 = (true, ⟨200, 30⟩)) ∧
    (account_decrease_balance ⟨600, 30⟩ 700 = (false, ⟨600, 30⟩)) ∧
    (account_decrease_inventory ⟨600, 30⟩ 20 = (true, ⟨600, 10⟩)) ∧
    (account_decrease_inventory ⟨600, 30⟩ 40 = (false, ⟨600, 30⟩)) := by
  have h := decrease_balance_compare_and_subtract ⟨600, 30⟩
  exact ⟨(h 400).1 (by decide), (h 700).2.1 (by decide),
    ((h 20).2.2.1 (by decide)), ((h 40).2.2.2.1 (by decide))⟩

/-- C1: `trader_login` performs no duplicate-name check.  With ample
capacity (`MAX_TRADERS = 4096` here; any bound ≥ 2 behaves the same), a
second LOGIN for "alice" while a session named "alice" is logged in
succeeds instead of being rejected, leaving two live sessions with the
same name in the map — so `brs_client_service` replies ACK, not the NACK
the specification requires. -/
theorem trader_login_duplicate_accepted :
    trader_login ⟨[]⟩ "alice" 4096 = some ⟨["alice"]⟩ ∧
    trader_login ⟨["alice"]⟩ "alice" 4096 = some ⟨["alice", "alice"]⟩ ∧
    (⟨["alice", "alice"]⟩ : TraderMap).entries.count "alice" = 2 := by
  decide

/-- C2 (counterexample to the claim as stated): after scenario S3 —
deposit 10000 by alice (trader 0), escrow 10 by bob, bob SELL 10 @ 50,
alice BUY 10 @ 100, matchmaker trade of 10 @ 75 — alice holds balance
9250 and no open buy orders, yet her deposits minus withdrawals plus
sale proceeds total 10000: the claimed identity omits the cash spent on
purchases (here 750). -/
theorem cash_conservation_claim_counterexample :
    ((run s3Ops).accounts 0).balance = 9250 ∧
    buyCash 0 (run s3Ops).buys = 0 ∧
    (run s3Ops).deposited 0 = 10000 ∧
    (run s3Ops).withdrawn 0 = 0 ∧
    (run s3Ops).proceeds 0 = 0 ∧
    (run s3Ops).purchases 0 = 750 ∧
    ¬ (((run s3Ops).accounts 0).balance + buyCash 0 (run s3Ops).buys =
        (run s3Ops).deposited 0 - (run s3Ops).withdrawn 0 + (run s3Ops).proceeds 0) := by
  decide

/-- C3: with two BUY orders tied at limit price 100 — id 1 posted before
id 2 — `find_best_buy` selects the order with id 2, the most recent
arrival (orders are inserted at the list head and the scan replaces the
best only on a strictly greater price); likewise `find_best_sell` on two
SELL orders tied at 200 (ids 3 then 4) selects id 4.  The required
"best price, earliest arrival" rule would select ids 1 and 3. -/
theorem best_order_tie_selects_most_recent :
    (run tieOps).buys =
      [⟨2, 1, 5, 100⟩, ⟨1, 0, 5, 100⟩] ∧
    find_best_buy (run tieOps).buys = some (0, ⟨2, 1, 5, 100⟩) ∧
    (run tieOps).sells =
      [⟨4, 3, 5, 200⟩, ⟨3, 2, 5, 200⟩] ∧
    find_best_sell (run tieOps).sells = some (0, ⟨4, 3, 5, 200⟩) := by
  decide

/-- C4 (counterexample to the claim as stated): crossing SELL 1 @ 2^31
against BUY 1 @ 2^31 with no prior trade executes — both books drain —
but at price `((2^31 + 2^31) % 2^32) / 2 = 0`, not the integer midpoint
`(2^31 + 2^31) / 2 = 2^31`: the `uint32_t` sum wraps, the seller is paid
nothing, and `last_trade_price` records 0. -/
theorem trade_price_midpoint_wraps :
    (run midWrapOps).buys = [] ∧
    (run midWrapOps).sells = [] ∧
    (run midWrapOps).lastTradePrice = 0 ∧
    ((run midWrapOps).accounts 1).balance = 0 ∧
    tradePrice 0 2147483648 2147483648 = 0 ∧
    (2147483648 + 2147483648) / 2 = 2147483648 := by
  decide

/-- C5: `exchange_post_buy` computes the encumbrance
`quantity * price` in `uint32_t` with no overflow check: posting
BUY 65536 @ 65536 (true cost 2^32) on a fresh account with balance 0 is
accepted — order id 1 is returned, so the servicer replies ACK, not
NACK — the wrapped cost 0 is debited, the balance stays 0, and the book
holds an order whose true encumbrance is 2^32. -/
theorem post_buy_overflow_accepted :
    65536 * 65536 = U32 ∧
    (exchange_post_buy initSt 0 65536 65536).1 = 1 ∧
    ((exchange_post_buy initSt 0 65536 65536).2.accounts 0).balance = 0 ∧
    (exchange_post_buy initSt 0 65536 65536).2.buys =
      [⟨1, 0, 65536, 65536⟩] := by
  decide

/-- C8: the servicer exit path releases the login reference twice.
`trader_login` hands the servicer exactly one reference (refcount 1);
on disconnect `brs_client_service` calls `trader_logout` — which itself
unrefs — and then `trader_unref` again.  With no other references the
first unref frees the session and the second operates on the freed
session (refcount would go negative, the case `trader_unref` aborts on);
with one outstanding order reference (refcount 2) the pair frees the
session while the order still holds its reference.  A single release, as
the claim requires, would leave the session exactly freed from
refcount 1. -/
theorem servicer_cleanup_releases_twice :
    servicer_cleanup (.live 1) = .aborted ∧
    servicer_cleanup (.live 2) = .freed ∧
    trader_unref (.live 1) = .freed ∧
    trader_unref (.live 2) = .live 1 := by
  decide

/-- C9: `empty_sem` is a counting semaphore posted on every transition
of the client count to zero; the fast path of `creg_wait_for_empty`
never drains it, so a transition to empty that happened before the call leaves
a stale unit: after client 3 registers and unregisters and client 4
registers, the count is 1 yet `sem_wait` returns immediately — the call
returns while client 4 is still registered, which the claim rules out. -/
theorem wait_for_empty_returns_with_client_registered :
    staleSemTrace.fds = [4] ∧
    staleSemTrace.emptySem = 1 ∧
    creg_wait_returns_without_blocking staleSemTrace = true := by
  decide

/-- Helper for C10: the send loop appends every element of the remaining
snapshot to the attempted list and ends with result 0 exactly when the
starting result was 0 and every send succeeded. -/
theorem broadcast_foldl_spec {τ : Type} (send : τ → Bool) :
    ∀ (l : List τ) (st : BcastSt τ),
      (l.foldl (broadcast_send_step send) st).attempted = st.attempted ++ l ∧
      (l.foldl (broadcast_send_step send) st).result =
        (if ∀ t ∈ l, send t = true then st.result else -1) := by
  intro l
  induction l with
  | nil => intro st; simp
  | cons a rest ih =>
    intro st
    obtain ⟨h1, h2⟩ := ih (broadcast_send_step send st a)
    constructor
    · rw [List.foldl_cons, h1]
      simp [broadcast_send_step]
    · rw [List.foldl_cons, h2]
      by_cases ha : send a = true
      · simp [broadcast_send_step, ha]
      · simp only [broadcast_send_step, ha, if_neg]
        simp [ha]

/-- C10: `trader_broadcast_packet` attempts the send to every session in
its snapshot of logged-in traders regardless of individual failures, and
returns 0 exactly when every send succeeded and -1 exactly when at least
one failed. -/
theorem broadcast_attempts_every_session {τ : Type}
    (snapshot : List τ) (send : τ → Bool) :
    (trader_broadcast_packet snapshot send).attempted = snapshot ∧
    ((trader_broadcast_packet snapshot send).result = 0 ↔
      ∀ t ∈ snapshot, send t = true) ∧
    ((trader_broadcast_packet snapshot send).result = -1 ↔
      ∃ t ∈ snapshot, send t = false) := by
  obtain ⟨h1, h2⟩ := broadcast_foldl_spec send snapshot ⟨[], 0⟩
  refine ⟨by simpa using h1, ?_, ?_⟩
  · rw [trader_broadcast_packet, h2]
    by_cases h : ∀ t ∈ snapshot, send t = true
    · rw [if_pos h]
      exact iff_of_true rfl h
    · rw [if_neg h]
      constructor
      · intro h0
        exact absurd h0 (by decide)
      · intro hall
        exact absurd hall h
  · rw [trader_broadcast_packet, h2]
    by_cases h : ∀ t ∈ snapshot, send t = true
    · rw [if_pos h]
      constructor
      · intro h0
        simp at h0
      · rintro ⟨t, ht, hs⟩
        have hc := h t ht
        rw [hs] at hc
        exact absurd hc (by decide)
    · rw [if_neg h]
      push_neg at h
      obtain ⟨t, ht, hs⟩ := h
      exact iff_of_true rfl ⟨t, ht, by simpa using hs⟩



/-- C2 (amended): conservation of cash.  For every trader and every
sequence of deposits, withdrawals, escrows, releases, order posts,
matchmaker iterations, cancels and exchange teardown, in any order and
number, the balance plus the cash encumbered in the trader's open BUY
orders plus everything that ever left the account (withdrawals and
purchase costs) is congruent modulo `2 ^ 32` — the `uint32_t` funds
type — to everything that ever entered it (deposits and sale proceeds).
The claim's original identity `balance + encumbrance = deposited −
withdrawn + proceeds` omits the purchase-cost term (see the
counterexample) and exact equality must be weakened to congruence
because every balance mutation wraps modulo `2 ^ 32`. -/
theorem cash_conservation (ops : List Op) (t : Nat) :
    ((run ops).accounts t).balance + buyCash t (run ops).buys
        + (run ops).withdrawn t + (run ops).purchases t
      ≡ (run ops).deposited t + (run ops).proceeds t [MOD U32] :=
  cashInv_run_aux t ops initSt (cashInv_init t)

/-- C4 (amended): every executed trade is priced by the anchoring rule;
the no-previous-trade midpoint is computed in `uint32_t`, so it is
`((low + high) % 2^32) / 2` — equal to the integer midpoint whenever
`low + high < 2^32` (see the counterexample for the wrapping case); the
other three branches are exactly as claimed; and in scenario S3 the
SELL 10 @ 50 / BUY 10 @ 100 cross on a fresh book trades quantity 10 at
price 75, leaving alice with balance 9250 and inventory 10 and bob with
balance 750 and inventory 0. -/
theorem trade_anchored_price (s : ExSt) (i : Nat) (bo : Order) (j : Nat) (so : Order)
    (hb : find_best_buy s.buys = some (i, bo))
    (hs : find_best_sell s.sells = some (j, so))
    (hcross : so.price ≤ bo.price) :
    (matchStep s).lastTradePrice = tradePrice s.lastTradePrice so.price bo.price ∧
    (s.lastTradePrice = 0 →
      tradePrice s.lastTradePrice so.price bo.price = ((so.price + bo.price) % U32) / 2) ∧
    (0 < s.lastTradePrice → so.price ≤ s.lastTradePrice → s.lastTradePrice ≤ bo.price →
      tradePrice s.lastTradePrice so.price bo.price = s.lastTradePrice) ∧
    (0 < s.lastTradePrice → s.lastTradePrice < so.price →
      tradePrice s.lastTradePrice so.price bo.price = so.price) ∧
    (bo.price < s.lastTradePrice →
      tradePrice s.lastTradePrice so.price bo.price = bo.price) ∧
    ((run s3Ops).lastTradePrice = 75 ∧
      ((run s3Ops).accounts 0).balance = 9250 ∧
      ((run s3Ops).accounts 0).inventory = 10 ∧
      ((run s3Ops).accounts 1).balance = 750 ∧
      ((run s3Ops).accounts 1).inventory = 0) := by
  refine ⟨?_, ?_, ?_, ?_, ?_, by decide⟩
  · unfold matchStep
    rw [hb, hs]
    show (matchExec s i bo j so).lastTradePrice =
      tradePrice s.lastTradePrice so.price bo.price
    unfold matchExec
    rw [if_neg (Nat.not_lt.mpr hcross)]
    simp only [updAcct, bump]
    by_cases hr0 : 0 < min bo.quantity so.quantity *
        (bo.price - tradePrice s.lastTradePrice so.price bo.price) % U32
    · rw [if_pos hr0]
    · rw [if_neg hr0]
  · intro h0
    unfold tradePrice
    rw [if_pos h0]
  · intro hpos h1 h2
    unfold tradePrice
    rw [if_neg (Nat.pos_iff_ne_zero.mp hpos), if_pos ⟨h1, h2⟩]
  · intro hpos hlt
    unfold tradePrice
    rw [if_neg (Nat.pos_iff_ne_zero.mp hpos),
      if_neg (fun hc => absurd hc.1 (Nat.not_le.mpr hlt)), if_pos hlt]
  · intro hgt
    have hpos : 0 < s.lastTradePrice := Nat.lt_of_le_of_lt (Nat.zero_le _) hgt
    unfold tradePrice
    rw [if_neg (Nat.pos_iff_ne_zero.mp hpos),
      if_neg (fun hc => absurd hc.2 (Nat.not_le.mpr hgt)),
      if_neg (Nat.not_lt.mpr (Nat.le_trans hcross (Nat.le_of_lt hgt)))]

/-- Witness for `trade_anchored_price`: in the S3 book (SELL 10 @ 50 as
order 1, BUY 10 @ 100 as order 2, no prior trade) the matchmaker records
the trade at 75, the wrapped midpoint of 50 and 100. -/
theorem trade_anchored_price_witness :
    (matchStep (run s3PostedOps)).lastTradePrice = 75 := by
  have h := trade_anchored_price (run s3PostedOps) 0 ⟨2, 0, 10, 100⟩ 0 ⟨1, 1, 10, 50⟩
    (by decide) (by decide) (by decide)
  exact h.1.trans (by decide)


/-- Helper: `scanCancel` misses when no order in the list bears the id. -/
theorem scanCancel_none_of_absent (tr oid : Nat) :
    ∀ l : List Order, (∀ o ∈ l, o.id ≠ oid) → scanCancel tr oid l = none := by
  intro l
  induction l with
  | nil => intro h; rfl
  | cons a rest ih =>
    intro h
    rw [scanCancel, if_neg (h a (List.mem_cons_self a rest)),
      ih (fun o ho => h o (List.mem_cons_of_mem a ho))]

/-- Helper: `scanCancel` unlinks exactly the first order bearing the id when it
is owned by the caller. -/
theorem scanCancel_hit_of_decomp (tr oid : Nat) :
    ∀ (l1 : List Order) (o : Order) (l2 : List Order),
      (∀ x ∈ l1, x.id ≠ oid) → o.id = oid → o.owner = tr →
      scanCancel tr oid (l1 ++ o :: l2) = some (.hit o (l1 ++ l2)) := by
  intro l1
  induction l1 with
  | nil =>
    intro o l2 hpre hid hown
    rw [List.nil_append, scanCancel, if_pos hid, if_neg (not_not_intro hown)]
    rfl
  | cons a l1t ih =>
    intro o l2 hpre hid hown
    rw [List.cons_append, scanCancel,
      if_neg (hpre a (List.mem_cons_self a l1t)),
      ih o l2 (fun x hx => hpre x (List.mem_cons_of_mem a hx)) hid hown]
    rfl

/-- When the unique order bearing the id belongs to someone else,
`scanCancel` reports the owner mismatch. -/
theorem scanCancel_owner_mismatch (tr oid : Nat) :
    ∀ (l : List Order) (o : Order), o ∈ l → o.id = oid → o.owner ≠ tr →
      (l.map Order.id).Nodup → scanCancel tr oid l = some .notOwner := by
  intro l
  induction l with
  | nil =>
    intro o ho
    exact absurd ho (List.not_mem_nil o)
  | cons a rest ih =>
    intro o ho hid hown hnd
    have hnd1 : (a.id :: rest.map Order.id).Nodup := by
      simpa only [List.map_cons] using hnd
    have hnd2 := List.nodup_cons.mp hnd1
    rw [scanCancel]
    by_cases ha : a.id = oid
    · rw [if_pos ha]
      rcases List.mem_cons.mp ho with rfl | homem
      · rw [if_pos hown]
      · exfalso
        have hmem : oid ∈ rest.map Order.id := by
          rw [← hid]
          exact List.mem_map_of_mem Order.id homem
        rw [ha] at hnd2
        exact hnd2.1 hmem
    · rw [if_neg ha]
      have homem : o ∈ rest := by
        rcases List.mem_cons.mp ho with rfl | hm
        · exact absurd hid ha
        · exact hm
      rw [ih o homem hid hown hnd2.2]

/-- C7: `exchange_cancel` with unique order ids (every reachable book
assigns ids from the monotone counter, so ids are unique).
If no order bears the id, the call returns not-found; if the order
bearing the id is owned by another trader, the call returns the very
same not-found, indistinguishable to the caller, and `brs_client_service`
leaves the state untouched and replies NACK; if the order bearing the id
is an owned BUY, the call removes exactly that order, returns its
remaining quantity and refunds `remaining * limit_price` (a `uint32_t`
product) to the owner's balance; if it is an owned SELL, the call
removes it, returns its remaining quantity and refunds the quantity to
the owner's inventory. -/
theorem exchange_cancel_spec (s : ExSt) (trader oid : Nat)
    (hnd : ((s.buys ++ s.sells).map Order.id).Nodup) :
    ((∀ o, o ∈ s.buys ++ s.sells → o.id ≠ oid) →
      exchange_cancel s trader oid = none) ∧
    (∀ o, o ∈ s.buys ++ s.sells → o.id = oid → o.owner ≠ trader →
      exchange_cancel s trader oid = none) ∧
    (∀ l1 o l2, s.buys = l1 ++ o :: l2 → o.id = oid → o.owner = trader →
      exchange_cancel s trader oid = some (o.quantity,
        updAcct { s with buys := l1 ++ l2 } trader
          (fun a => account_increase_balance a ((o.quantity * o.price) % U32)))) ∧
    (∀ l1 o l2, s.sells = l1 ++ o :: l2 → o.id = oid → o.owner = trader →
      exchange_cancel s trader oid = some (o.quantity,
        updAcct { s with sells := l1 ++ l2 } trader
          (fun a => account_increase_inventory a o.quantity))) ∧
    (∀ oid2, exchange_cancel s trader (oid2 % U32) = none →
      step s (.cancel trader oid2) = s) := by
  have hmap : (s.buys.map Order.id ++ s.sells.map Order.id).Nodup := by
    simpa [List.map_append] using hnd
  obtain ⟨hndb, hnds, hdisj⟩ := List.nodup_append.mp hmap
  refine ⟨?_, ?_, ?_, ?_, ?_⟩
  · intro h
    unfold exchange_cancel
    rw [scanCancel_none_of_absent trader oid s.buys
        (fun o ho => h o (List.mem_append_left s.sells ho)),
      scanCancel_none_of_absent trader oid s.sells
        (fun o ho => h o (List.mem_append_right s.buys ho))]
  · intro o ho hid hown
    unfold exchange_cancel
    rcases List.mem_append.mp ho with hb | hsl
    · rw [scanCancel_owner_mismatch trader oid s.buys o hb hid hown hndb]
    · have hnone : scanCancel trader oid s.buys = none := by
        apply scanCancel_none_of_absent
        intro x hx hxid
        exact hdisj (List.mem_map_of_mem Order.id hx)
          (by rw [hxid, ← hid]; exact List.mem_map_of_mem Order.id hsl)
      rw [hnone, scanCancel_owner_mismatch trader oid s.sells o hsl hid hown hnds]
  · intro l1 o l2 hdec hid hown
    have hpre : ∀ x ∈ l1, x.id ≠ oid := by
      intro x hx hxid
      have hnd3 : (l1.map Order.id ++ o.id :: l2.map Order.id).Nodup := by
        have := hndb
        rw [hdec] at this
        simpa [List.map_append] using this
      obtain ⟨_, _, hdj⟩ := List.nodup_append.mp hnd3
      exact hdj (List.mem_map_of_mem Order.id hx)
        (by rw [hxid, ← hid]; exact List.mem_cons_self o.id (l2.map Order.id))
    unfold exchange_cancel
    rw [hdec, scanCancel_hit_of_decomp trader oid l1 o l2 hpre hid hown]
  · intro l1 o l2 hdec hid hown
    have hnone : scanCancel trader oid s.buys = none := by
      apply scanCancel_none_of_absent
      intro x hx hxid
      refine hdisj (List.mem_map_of_mem Order.id hx) ?_
      rw [hxid, ← hid]
      rw [hdec]
      simp
    have hpre : ∀ x ∈ l1, x.id ≠ oid := by
      intro x hx hxid
      have hnd3 : (l1.map Order.id ++ o.id :: l2.map Order.id).Nodup := by
        have := hnds
        rw [hdec] at this
        simpa [List.map_append] using this
      obtain ⟨_, _, hdj⟩ := List.nodup_append.mp hnd3
      exact hdj (List.mem_map_of_mem Order.id hx)
        (by rw [hxid, ← hid]; exact List.mem_cons_self o.id (l2.map Order.id))
    unfold exchange_cancel
    rw [hnone, hdec, scanCancel_hit_of_decomp trader oid l1 o l2 hpre hid hown]
  · intro oid2 h
    simp [step, h]

/-- Witness for `exchange_cancel_spec` on the concrete book of
`cancelDemoSt` (BUY order 1 owned by trader 0, SELL order 2 owned by
trader 1): cancelling an unknown id and cancelling an order of another
trader both yield the same not-found, and owned cancels remove the order and
refund the encumbrance. -/
theorem exchange_cancel_spec_witness :
    exchange_cancel cancelDemoSt 0 3 = none ∧
    exchange_cancel cancelDemoSt 1 1 = none ∧
    exchange_cancel cancelDemoSt 0 1 =
      some (5, updAcct { cancelDemoSt with buys := ([] : List Order) } 0
        (fun a => account_increase_balance a ((5 * 100) % U32))) ∧
    exchange_cancel cancelDemoSt 1 2 =
      some (7, updAcct { cancelDemoSt with sells := ([] : List Order) } 1
        (fun a => account_increase_inventory a 7)) := by
  refine ⟨?_, ?_, ?_, ?_⟩
  · exact (exchange_cancel_spec cancelDemoSt 0 3 (by decide)).1 (by decide)
  · exact (exchange_cancel_spec cancelDemoSt 1 1 (by decide)).2.1
      ⟨1, 0, 5, 100⟩ (by decide) (by decide) (by decide)
  · exact (exchange_cancel_spec cancelDemoSt 0 1 (by decide)).2.2.1
      [] ⟨1, 0, 5, 100⟩ [] (by decide) (by decide) (by decide)
  · exact (exchange_cancel_spec cancelDemoSt 1 2 (by decide)).2.2.2.1
      [] ⟨2, 1, 7, 9⟩ [] (by decide) (by decide) (by decide)

end Bourse
